import Mathlib

/-!
Shallow embedding of the DWPose restorator core (`src/nodes.py`) and proofs
about its restoration algorithm.

Python floats are modelled as rationals (`ℚ`); the algebraic structure of the
algorithm (offset transfer, affine application, min/multiplication on
confidences, canvas comparisons) is preserved exactly.  Python list indexing
that can raise `IndexError` is modelled in `Option`: a `none` result of a
restoration function corresponds to an uncaught exception.  The external
numeric solvers (`cv2.getAffineTransform`, `np.linalg.lstsq`) that
`_estimate_affine_transform` delegates to once it has gathered at least three
correspondences are abstracted as a `solver` parameter; everything the
repository's own code does (correspondence filtering, the `< 3` cutoff, offset
transformation, hierarchy traversal, confidence propagation, canvas clipping,
container plumbing) is translated directly from the source.
-/

/-- A keypoint `(x, y, confidence)` as used throughout `nodes.py`. -/
structure KP where
  x : ℚ
  y : ℚ
  c : ℚ
deriving DecidableEq, Repr

instance : Inhabited KP := ⟨⟨0, 0, 0⟩⟩

/-- `DwRestorator._is_keypoint_missing`: a keypoint is missing iff it is the
exact `(0, 0, 0)` sentinel. -/
def is_keypoint_missing (k : KP) : Prop :=
  k.x = 0 ∧ k.y = 0 ∧ k.c = 0

instance (k : KP) : Decidable (is_keypoint_missing k) := by
  unfold is_keypoint_missing; exact inferInstance

/-- A 2×3 affine matrix `[[a, b, tx], [c, d, ty]]` as produced by
`_estimate_affine_transform`. -/
structure Affine where
  a : ℚ
  b : ℚ
  tx : ℚ
  c : ℚ
  d : ℚ
  ty : ℚ
deriving DecidableEq, Repr

/-- Abstraction of the external numeric fitting code (`cv2.getAffineTransform`
and the `np.linalg.lstsq` refinement): given the correspondence pairs
`((x_ref, y_ref), (x_cur, y_cur))` gathered by the repository code, it
produces some 2×3 matrix.  The repository's own logic never inspects how the
matrix was fitted. -/
def AffineSolver : Type :=
  List ((ℚ × ℚ) × (ℚ × ℚ)) → Affine

/-- The correspondence-gathering loop of `_estimate_affine_transform`
(`src/nodes.py` lines 129–141): for each index `i` below the length of the
shorter list, the pair of positions `((x_ref, y_ref), (x_cur, y_cur))` is
appended iff the reference keypoint has confidence above `0.3` and is not the
missing sentinel, and the current keypoint has confidence above `0.3` and is
not the missing sentinel. -/
def correspondence_pairs (keypoints_current keypoints_ref : List KP) :
    List ((ℚ × ℚ) × (ℚ × ℚ)) :=
  (List.range (min keypoints_current.length keypoints_ref.length)).foldl
    (fun acc i =>
      let kc := keypoints_current.getD i default
      let kr := keypoints_ref.getD i default
      if kr.c > 3/10 ∧ ¬ is_keypoint_missing kr then
        if kc.c > 3/10 ∧ ¬ is_keypoint_missing kc then
          acc ++ [((kr.x, kr.y), (kc.x, kc.y))]
        else acc
      else acc)
    []

/-- `DwRestorator._estimate_affine_transform`: returns `none` ("unavailable")
when fewer than three correspondences exist, otherwise the matrix produced by
the external solver on the gathered correspondences. -/
def estimate_affine_transform (solver : AffineSolver)
    (keypoints_current keypoints_ref : List KP) : Option Affine :=
  let pairs := correspondence_pairs keypoints_current keypoints_ref
  if pairs.length < 3 then none else some (solver pairs)

/-- `DwRestorator._transform_point`: applies the full affine map (including
translation) to a point; identity when the matrix is unavailable. -/
def transform_point (p : ℚ × ℚ) (m : Option Affine) : ℚ × ℚ :=
  match m with
  | none => p
  | some M => (M.a * p.1 + M.b * p.2 + M.tx, M.c * p.1 + M.d * p.2 + M.ty)

/-- `BODY_HIERARCHY` from `src/nodes.py`, in dict insertion order:
`(child_idx, parent_idx)` pairs. -/
def BODY_HIERARCHY : List (Nat × Nat) :=
  [(1, 0), (2, 0), (3, 1), (4, 2), (5, 17), (6, 17), (7, 5), (8, 6),
   (9, 7), (10, 8), (11, 17), (12, 17), (13, 11), (14, 12), (15, 13), (16, 14)]

/-- `HAND_HIERARCHY` from `src/nodes.py`, in dict insertion order. -/
def HAND_HIERARCHY : List (Nat × Nat) :=
  [(1, 0), (2, 1), (3, 2), (4, 3),
   (5, 0), (6, 5), (7, 6), (8, 7),
   (9, 0), (10, 9), (11, 10), (12, 11),
   (13, 0), (14, 13), (15, 14), (16, 15),
   (17, 0), (18, 17), (19, 18), (20, 19)]

/-- One iteration of the `for child_idx, parent_idx in hierarchy.items()` loop
of `_restore_keypoints_relative` (`src/nodes.py` lines 209–258).  Reads the
child from the evolving `restored` list, the parent from the *original*
`keypoints_current` list, and the reference child from `keypoints_ref`; the
latter access is unguarded in the source (only `parent_idx` is bounds-checked
against `keypoints_ref`), so an out-of-range `child_idx` yields `none`
(Python `IndexError`). -/
def restore_step (keypoints_current keypoints_ref : List KP)
    (affine_matrix : Option Affine) (reduce_confidence : Bool)
    (confidence_factor : ℚ) (restored : List KP) (cp : Nat × Nat) :
    Option (List KP) :=
  let child_idx := cp.1
  let parent_idx := cp.2
  if child_idx < restored.length then
    let child := restored.getD child_idx default
    if is_keypoint_missing child then
      if parent_idx < keypoints_current.length ∧ parent_idx < keypoints_ref.length then
        let parent_cur := keypoints_current.getD parent_idx default
        let parent_ref := keypoints_ref.getD parent_idx default
        if is_keypoint_missing parent_cur then some restored
        else match keypoints_ref[child_idx]? with
          | none => none
          | some child_ref =>
            if is_keypoint_missing child_ref then some restored
            else
              let offset_x := child_ref.x - parent_ref.x
              let offset_y := child_ref.y - parent_ref.y
              let offset_transformed :=
                match affine_matrix with
                | some M =>
                  let t := transform_point (offset_x, offset_y) (some M)
                  (t.1 - M.tx, t.2 - M.ty)
                | none => (offset_x, offset_y)
              let c_min := min parent_cur.c child_ref.c
              let c_restored :=
                if reduce_confidence then c_min * confidence_factor else c_min
              some (restored.set child_idx
                ⟨parent_cur.x + offset_transformed.1,
                 parent_cur.y + offset_transformed.2, c_restored⟩)
      else some restored
    else some restored
  else some restored

/-- The full hierarchy traversal of `_restore_keypoints_relative`, threading
the mutable `restored` list through the steps and propagating an
`IndexError` (`none`). -/
def restore_loop (keypoints_current keypoints_ref : List KP)
    (affine_matrix : Option Affine) (reduce_confidence : Bool)
    (confidence_factor : ℚ) :
    List (Nat × Nat) → List KP → Option (List KP)
  | [], restored => some restored
  | cp :: rest, restored =>
    match restore_step keypoints_current keypoints_ref affine_matrix
        reduce_confidence confidence_factor restored cp with
    | none => none
    | some r =>
      restore_loop keypoints_current keypoints_ref affine_matrix
        reduce_confidence confidence_factor rest r

/-- `DwRestorator._restore_keypoints_relative` (`src/nodes.py` lines
185–260): returns the current keypoints unchanged when no reference is given;
otherwise estimates the group affine once and walks the hierarchy starting
from a copy of the current keypoints. -/
def restore_keypoints_relative (solver : AffineSolver)
    (keypoints_current : List KP) (keypoints_ref : Option (List KP))
    (hierarchy : List (Nat × Nat)) (reduce_confidence : Bool)
    (confidence_factor : ℚ) : Option (List KP) :=
  match keypoints_ref with
  | none => some keypoints_current
  | some kref =>
    let affine_matrix := estimate_affine_transform solver keypoints_current kref
    restore_loop keypoints_current kref affine_matrix reduce_confidence
      confidence_factor hierarchy keypoints_current

/-- The anchor-search loop of `_restore_face_keypoints` (`src/nodes.py` lines
443–452): scans all indices `j` of `keypoints_current` in order, keeping the
index of strictly smallest squared distance from the *reference* position
`(x_ref, y_ref)` of the missing point to the *current-frame* position of the
candidate, among candidates with confidence above `0.3` that are not the
missing sentinel.  The state mirrors `(closest_idx, min_dist)`, with `none`
standing for the initial `(None, inf)`. -/
def closest_scan (keypoints_current : List KP) (x_ref y_ref : ℚ) :
    List Nat → Option (Nat × ℚ) → Option (Nat × ℚ)
  | [], best => best
  | j :: rest, best =>
    let kj := keypoints_current.getD j default
    if kj.c > 3/10 ∧ ¬ is_keypoint_missing kj then
      let dist := (x_ref - kj.x) ^ 2 + (y_ref - kj.y) ^ 2
      match best with
      | none => closest_scan keypoints_current x_ref y_ref rest (some (j, dist))
      | some (bj, bd) =>
        if dist < bd then
          closest_scan keypoints_current x_ref y_ref rest (some (j, dist))
        else
          closest_scan keypoints_current x_ref y_ref rest (some (bj, bd))
    else closest_scan keypoints_current x_ref y_ref rest best

/-- The anchor index (`closest_idx`) selected by `_restore_face_keypoints` for
a missing point whose reference position is `(x_ref, y_ref)`. -/
def closest_existing_idx (keypoints_current : List KP) (x_ref y_ref : ℚ) :
    Option Nat :=
  (closest_scan keypoints_current x_ref y_ref
      (List.range keypoints_current.length) none).map Prod.fst

/-- One iteration (index `i`) of the `for i in range(len(restored))` loop of
`_restore_face_keypoints` (`src/nodes.py` lines 434–479).  The anchor's
reference counterpart `keypoints_ref[closest_idx]` is read without a bounds
check in the source, so that access is modelled in `Option`.  (The
`face_center` computed at lines 420–431 of the source is never used by the
restoration and is omitted.) -/
def face_restore_step (keypoints_current keypoints_ref : List KP)
    (affine_matrix : Option Affine) (reduce_confidence : Bool)
    (confidence_factor : ℚ) (restored : List KP) (i : Nat) :
    Option (List KP) :=
  let kp := restored.getD i default
  if is_keypoint_missing kp then
    if i < keypoints_ref.length then
      let kref := keypoints_ref.getD i default
      if is_keypoint_missing kref then some restored
      else
        match closest_existing_idx keypoints_current kref.x kref.y with
        | none => some restored
        | some closest_idx =>
          let anchor := keypoints_current.getD closest_idx default
          match keypoints_ref[closest_idx]? with
          | none => none
          | some anchor_ref =>
            let offset_x := kref.x - anchor_ref.x
            let offset_y := kref.y - anchor_ref.y
            let offset_transformed :=
              match affine_matrix with
              | some M =>
                let t := transform_point (offset_x, offset_y) (some M)
                (t.1 - M.tx, t.2 - M.ty)
              | none => (offset_x, offset_y)
            let c_restored :=
              if reduce_confidence then kref.c * confidence_factor else kref.c
            some (restored.set i
              ⟨anchor.x + offset_transformed.1,
               anchor.y + offset_transformed.2, c_restored⟩)
    else some restored
  else some restored

/-- The index traversal of `_restore_face_keypoints`, in `Option`. -/
def face_restore_loop (keypoints_current keypoints_ref : List KP)
    (affine_matrix : Option Affine) (reduce_confidence : Bool)
    (confidence_factor : ℚ) :
    List Nat → List KP → Option (List KP)
  | [], restored => some restored
  | i :: rest, restored =>
    match face_restore_step keypoints_current keypoints_ref affine_matrix
        reduce_confidence confidence_factor restored i with
    | none => none
    | some r =>
      face_restore_loop keypoints_current keypoints_ref affine_matrix
        reduce_confidence confidence_factor rest r

/-- `DwRestorator._restore_face_keypoints` (`src/nodes.py` lines 405–481). -/
def restore_face_keypoints (solver : AffineSolver)
    (keypoints_current : List KP) (keypoints_ref : Option (List KP))
    (reduce_confidence : Bool) (confidence_factor : ℚ) : Option (List KP) :=
  match keypoints_ref with
  | none => some keypoints_current
  | some kref =>
    let affine_matrix := estimate_affine_transform solver keypoints_current kref
    face_restore_loop keypoints_current kref affine_matrix reduce_confidence
      confidence_factor (List.range keypoints_current.length) keypoints_current

/-- The per-list clipping loop of `DwRestorator._zero_out_of_canvas`
(`src/nodes.py` lines 506–528): walks the flat `(x, y, confidence)` list in
strides of three, overwriting a triple with `(0, 0, 0)` iff
`x < 0 or x >= canvas_width or y < 0 or y >= canvas_height`; a trailing
fragment of fewer than three numbers is left untouched (the Python loop runs
over `range(0, len(kpts) - 2, 3)`). -/
def zero_out_list (canvas_height canvas_width : ℚ) : List ℚ → List ℚ
  | x :: y :: c :: rest =>
    if x < 0 ∨ x ≥ canvas_width ∨ y < 0 ∨ y ≥ canvas_height then
      0 :: 0 :: 0 :: zero_out_list canvas_height canvas_width rest
    else
      x :: y :: c :: zero_out_list canvas_height canvas_width rest
  | l => l

/-- Reads the `j`-th complete `(x, y, confidence)` triple of a flat keypoint
list; `none` when fewer than `3 * j + 3` numbers are available.  This is the
spec-side accessor used to state per-triple properties of the flat lists. -/
def getTriple : List ℚ → Nat → Option (ℚ × ℚ × ℚ)
  | x :: y :: c :: _, 0 => some (x, y, c)
  | _ :: _ :: _ :: rest, j + 1 => getTriple rest j
  | _, _ => none

/-- The flat-to-structured conversion used by `dwrestore` for each group
(`src/nodes.py` line 311 and analogues): consecutive complete `(x, y,
confidence)` triples; a trailing fragment of fewer than three numbers is
dropped. -/
def toTriples : List ℚ → List KP
  | x :: y :: c :: rest => ⟨x, y, c⟩ :: toTriples rest
  | _ => []

/-- The structured-to-flat conversion used by `dwrestore` after each group
restore (`src/nodes.py` lines 322–325 and analogues). -/
def flattenTriples : List KP → List ℚ
  | [] => []
  | k :: rest => k.x :: k.y :: k.c :: flattenTriples rest

/-- A person record as consumed by `dwrestore`: the four optional flat
keypoint sequences.  `none` models an absent dict key. -/
structure Person where
  pose_keypoints_2d : Option (List ℚ)
  face_keypoints_2d : Option (List ℚ)
  hand_left_keypoints_2d : Option (List ℚ)
  hand_right_keypoints_2d : Option (List ℚ)
deriving DecidableEq, Repr

/-- The per-group block of `dwrestore` for a hierarchy-based group
(`src/nodes.py` lines 306–325 for the body; the two hand blocks are
identical with `HAND_HIERARCHY`): the field is processed only when it is a
nonempty list of length at least 3 (Python truthiness plus the explicit
length check); the reference field is converted under the same guard,
otherwise the restorer receives `None`.  The restored triples are flattened
back over the field. -/
def restore_group (solver : AffineSolver) (hierarchy : List (Nat × Nat))
    (reduce_confidence : Bool) (confidence_factor : ℚ)
    (field_in field_ref : Option (List ℚ)) : Option (Option (List ℚ)) :=
  match field_in with
  | none => some none
  | some l =>
    if 3 ≤ l.length then
      let keypoints_current := toTriples l
      let keypoints_ref : Option (List KP) :=
        match field_ref with
        | some rl => if 3 ≤ rl.length then some (toTriples rl) else none
        | none => none
      match restore_keypoints_relative solver keypoints_current keypoints_ref
          hierarchy reduce_confidence confidence_factor with
      | none => none
      | some res => some (some (flattenTriples res))
    else some (some l)

/-- The face block of `dwrestore` (`src/nodes.py` lines 371–388), identical
to `restore_group` but dispatching to the anchor-based face restorer. -/
def restore_face_group (solver : AffineSolver) (reduce_confidence : Bool)
    (confidence_factor : ℚ) (field_in field_ref : Option (List ℚ)) :
    Option (Option (List ℚ)) :=
  match field_in with
  | none => some none
  | some l =>
    if 3 ≤ l.length then
      let keypoints_current := toTriples l
      let keypoints_ref : Option (List KP) :=
        match field_ref with
        | some rl => if 3 ≤ rl.length then some (toTriples rl) else none
        | none => none
      match restore_face_keypoints solver keypoints_current keypoints_ref
          reduce_confidence confidence_factor with
      | none => none
      | some res => some (some (flattenTriples res))
    else some (some l)

/-- The body of `dwrestore` acting on the first person of the input and the
first person of the reference (`src/nodes.py` lines 304–390): the four groups
in source order, each mutation landing on the input person. -/
def restore_person (solver : AffineSolver) (reduce_confidence : Bool)
    (confidence_factor : ℚ) (pin pref : Person) : Option Person := do
  let body ← restore_group solver BODY_HIERARCHY reduce_confidence
    confidence_factor pin.pose_keypoints_2d pref.pose_keypoints_2d
  let hand_left ← restore_group solver HAND_HIERARCHY reduce_confidence
    confidence_factor pin.hand_left_keypoints_2d pref.hand_left_keypoints_2d
  let hand_right ← restore_group solver HAND_HIERARCHY reduce_confidence
    confidence_factor pin.hand_right_keypoints_2d pref.hand_right_keypoints_2d
  let face ← restore_face_group solver reduce_confidence confidence_factor
    pin.face_keypoints_2d pref.face_keypoints_2d
  pure { pose_keypoints_2d := body, face_keypoints_2d := face,
         hand_left_keypoints_2d := hand_left,
         hand_right_keypoints_2d := hand_right }

/-- The `POSE_KEYPOINT` container shapes recognized by `dwrestore`'s
`get_person0` (`src/nodes.py` lines 275–292): a top-level dict with a
`people` list (and optional canvas dimensions), a list whose first element is
such a dict, a list directly holding person dicts, or anything else
(unsupported, raising `TypeError` in the source). -/
inductive PoseContainer where
  | dictPeople (canvas_height canvas_width : Option ℚ) (people : List Person)
  | listTopDict (canvas_height canvas_width : Option ℚ) (people : List Person)
  | listPersons (people : List Person)
  | unsupported
deriving DecidableEq, Repr

/-- The `people` list of a container (empty for an unsupported container). -/
def peopleOf : PoseContainer → List Person
  | .dictPeople _ _ ps => ps
  | .listTopDict _ _ ps => ps
  | .listPersons ps => ps
  | .unsupported => []

/-- Whether the container carries a literal `people` list (the dict and
list-wrapped-dict shapes). -/
def has_people_list : PoseContainer → Bool
  | .dictPeople _ _ _ => true
  | .listTopDict _ _ _ => true
  | _ => false

/-- Whether a person dict would pass `dwrestore`'s person-shaped check
(`src/nodes.py` line 289): at least one of the four keypoint keys present. -/
def person_shaped (p : Person) : Bool :=
  p.pose_keypoints_2d.isSome || p.face_keypoints_2d.isSome ||
  p.hand_left_keypoints_2d.isSome || p.hand_right_keypoints_2d.isSome

/-- `get_person0` as defined inside `dwrestore` (`src/nodes.py` lines
275–292); `none` models the `TypeError` it raises on unsupported
structures. -/
def get_person0_main : PoseContainer → Option Person
  | .dictPeople _ _ (p :: _) => some p
  | .listTopDict _ _ (p :: _) => some p
  | .listPersons (p :: _) => if person_shaped p then some p else none
  | _ => none

/-- `get_person0` as defined inside `_zero_out_of_canvas` (`src/nodes.py`
lines 490–499); its person-shaped check is narrower than `dwrestore`'s,
testing only the body and face keys. -/
def get_person0_zero : PoseContainer → Option Person
  | .dictPeople _ _ (p :: _) => some p
  | .listTopDict _ _ (p :: _) => some p
  | .listPersons (p :: _) =>
    if p.pose_keypoints_2d.isSome || p.face_keypoints_2d.isSome then some p
    else none
  | _ => none

/-- Writes a person back as the first entry of the `people` list, modelling
the in-place mutation of `people[0]` through the `pin` reference. -/
def replace_person0 : PoseContainer → Person → PoseContainer
  | .dictPeople h w (_ :: ps), p => .dictPeople h w (p :: ps)
  | .listTopDict h w (_ :: ps), p => .listTopDict h w (p :: ps)
  | .listPersons (_ :: ps), p => .listPersons (p :: ps)
  | c, _ => c

/-- `DwRestorator._get_canvas_dims` (`src/nodes.py` lines 532–540): the
`(canvas_height, canvas_width)` pair, defaulting to `(512, 512)`; for a list
of bare person dicts the keys are absent, so the defaults apply. -/
def get_canvas_dims : PoseContainer → ℚ × ℚ
  | .dictPeople h w _ => (h.getD 512, w.getD 512)
  | .listTopDict h w _ => (h.getD 512, w.getD 512)
  | _ => (512, 512)

/-- The per-person clipping of `_zero_out_of_canvas` (`src/nodes.py` lines
506–528): each of the four flat lists, when present, is clipped in place. -/
def zero_out_person (canvas_height canvas_width : ℚ) (p : Person) : Person :=
  { pose_keypoints_2d :=
      p.pose_keypoints_2d.map (zero_out_list canvas_height canvas_width),
    face_keypoints_2d :=
      p.face_keypoints_2d.map (zero_out_list canvas_height canvas_width),
    hand_left_keypoints_2d :=
      p.hand_left_keypoints_2d.map (zero_out_list canvas_height canvas_width),
    hand_right_keypoints_2d :=
      p.hand_right_keypoints_2d.map (zero_out_list canvas_height canvas_width) }

/-- `DwRestorator._zero_out_of_canvas` (`src/nodes.py` lines 484–530):
extracts the first person with its own `get_person0` and clips that person's
groups; any other shape is left untouched (the source returns without
mutating, and swallows all exceptions). -/
def zero_out_of_canvas (canvas_height canvas_width : ℚ)
    (pose_data : PoseContainer) : PoseContainer :=
  match get_person0_zero pose_data with
  | none => pose_data
  | some p => replace_person0 pose_data (zero_out_person canvas_height canvas_width p)

/-- `DwRestorator.dwrestore` (`src/nodes.py` lines 262–403), restricted to the
pose output (the rendered image is produced by the external visualization
collaborator).  `ref_pose = none` short-circuits to the unchanged input; a
`get_person0` failure on either container returns the (copied) input
unchanged; an `IndexError` escaping a group restore aborts the call
(`none`). -/
def dwrestore (solver : AffineSolver) (pose_keypoints : PoseContainer)
    (ref_pose : Option PoseContainer) (reduce_confidence : Bool)
    (confidence_reduction_factor : ℚ) : Option PoseContainer :=
  match ref_pose with
  | none => some pose_keypoints
  | some ref =>
    match get_person0_main pose_keypoints, get_person0_main ref with
    | some pin, some pref =>
      match restore_person solver reduce_confidence confidence_reduction_factor
          pin pref with
      | none => none
      | some pin2 =>
        let out := replace_person0 pose_keypoints pin2
        let dims := get_canvas_dims out
        some (zero_out_of_canvas dims.1 dims.2 out)
    | _, _ => some pose_keypoints

/-- A concrete instance of the external solver used for closed evaluations:
it returns the fixed matrix `[[2, 0, 5], [0, 3, 7]]` regardless of the
correspondences (the repository code treats the solver as a black box). -/
def test_solver : AffineSolver := fun _ => ⟨2, 0, 5, 0, 3, 7⟩

/-- Hand-group current frame for the cascading scenario: only the palm
(keypoint 0) is present; the whole thumb chain `1 ← 2 ← 3 ← 4` is missing. -/
def c2cur : List KP := ⟨10, 10, 1⟩ :: List.replicate 20 ⟨0, 0, 0⟩

/-- Hand-group reference frame for the cascading scenario: all 21 keypoints
present. -/
def c2ref : List KP := (List.range 21).map (fun j => ⟨(j : ℚ) + 1, 1, 1⟩)

/-- The output of the hierarchical restorer on the cascading scenario. -/
def c2out : List KP :=
  (restore_keypoints_relative test_solver c2cur (some c2ref) HAND_HIERARCHY
    true (7/10)).getD []

/-- Face-group current frame for the anchor scenario: keypoints 0 and 1
present, keypoint 2 missing. -/
def c3cur : List KP := [⟨100, 0, 1⟩, ⟨0, 1, 1⟩, ⟨0, 0, 0⟩]

/-- Face-group reference frame for the anchor scenario: all three present.
In reference space, point 1 is the nearest neighbour of point 2; in the
current frame, point 0 is nearest to point 2's reference position. -/
def c3ref : List KP := [⟨0, 10, 1⟩, ⟨50, 0, 1⟩, ⟨60, 0, 1⟩]

/-- The output of the face restorer on the anchor scenario. -/
def c3out : List KP :=
  (restore_face_keypoints test_solver c3cur (some c3ref) true (7/10)).getD []

/-- Body-group current frame for the offset-transfer scenario: keypoints 0,
5, 6 present, keypoint 1 (child of 0) missing. -/
def c1cur : List KP :=
  (List.range 18).map (fun j =>
    if j = 0 then ⟨100, 50, 1⟩ else if j = 5 then ⟨20, 30, 1⟩
    else if j = 6 then ⟨40, 60, 1⟩ else ⟨0, 0, 0⟩)

/-- Body-group reference frame for the offset-transfer scenario: keypoints 0,
1, 5, 6 present, giving exactly three correspondences (indices 0, 5, 6). -/
def c1ref : List KP :=
  (List.range 18).map (fun j =>
    if j = 0 then ⟨10, 10, 1⟩ else if j = 1 then ⟨14, 12, 1⟩
    else if j = 5 then ⟨21, 31, 1⟩ else if j = 6 then ⟨41, 61, 1⟩
    else ⟨0, 0, 0⟩)

/-- The output of the hierarchical restorer on the offset-transfer
scenario. -/
def c1out : List KP :=
  (restore_keypoints_relative test_solver c1cur (some c1ref) BODY_HIERARCHY
    true (7/10)).getD []

/-- Current group for the length-mismatch scenario: three keypoints, the
third missing. -/
def c8cur : List KP := [⟨1, 1, 1⟩, ⟨2, 2, 1⟩, ⟨0, 0, 0⟩]

/-- Reference group for the length-mismatch scenario: a single keypoint, so
the reference list is shorter than the current list. -/
def c8ref : List KP := [⟨1, 1, 1⟩]

/-- Current group for the confidence-propagation instance: keypoint 1
missing, its parent 0 present with confidence `9/10`. -/
def c5cur : List KP := [⟨4, 4, 9/10⟩, ⟨0, 0, 0⟩]

/-- Reference group for the confidence-propagation instance: the reference
child has confidence `8/10`. -/
def c5ref : List KP := [⟨1, 1, 1⟩, ⟨2, 2, 8/10⟩]

/-- Output of the restorer on the confidence-propagation instance. -/
def c5out : List KP :=
  (restore_keypoints_relative test_solver c5cur (some c5ref) [(1, 0)] true
    (7/10)).getD []

/-- Current group for the closed idempotence instance: one present keypoint
next to a missing one. -/
def c6cur : List KP := [⟨5, 5, 1⟩, ⟨0, 0, 0⟩]

/-- Reference group for the closed idempotence instance. -/
def c6ref : List KP := [⟨6, 6, 1⟩, ⟨7, 7, 1⟩]

/-- Output of the hierarchical restorer on the idempotence instance. -/
def c6body_out : List KP :=
  (restore_keypoints_relative test_solver c6cur (some c6ref) BODY_HIERARCHY
    true (7/10)).getD []

/-- Output of the face restorer on the idempotence instance. -/
def c6face_out : List KP :=
  (restore_face_keypoints test_solver c6cur (some c6ref) true (7/10)).getD []

/-- Current group for the correspondence instance. -/
def c4cur : List KP := [⟨1, 1, 1⟩]

/-- Reference group for the correspondence instance. -/
def c4ref : List KP := [⟨2, 2, 1⟩]

/-- A person with one out-of-canvas body keypoint, one in-canvas body
keypoint, a trailing flat-list fragment, and an absent face field. -/
def c7person : Person :=
  ⟨some [600, 100, 1, 50, 50, 9/10, 1, 2], none, none, some [-3, 7, 1]⟩

/-- A frame holding `c7person`. -/
def c7frame : PoseContainer := .dictPeople none none [c7person]

/-- First person of the two-person container: body present with keypoint 1
missing. -/
def c10p0 : Person := ⟨some [3, 3, 1, 0, 0, 0], none, none, none⟩

/-- Second person of the two-person container. -/
def c10p1 : Person := ⟨some [9, 9, 1], none, none, none⟩

/-- The reference person for the two-person instance. -/
def c10refp : Person := ⟨some [1, 1, 1, 2, 2, 1], none, none, none⟩

/-- The reference container for the two-person instance. -/
def c10ref : PoseContainer := .dictPeople none none [c10refp]

/-- The two-person input container. -/
def c10pose : PoseContainer := .dictPeople none none [c10p0, c10p1]

/-- The output of `dwrestore` on the two-person instance. -/
def c10out : PoseContainer :=
  (dwrestore test_solver c10pose (some c10ref) true (7/10)).getD .unsupported

/-- The restored first person of the two-person instance. -/
def c10restored : Person :=
  (restore_person test_solver true (7/10) c10p0 c10refp).getD
    ⟨none, none, none, none⟩

/- The Batteries rational operations are `@[irreducible]`, which blocks the
kernel evaluation used by `decide` on the closed concrete instances below;
they are restored to their normal reducibility locally. -/
attribute [local semireducible] Rat.add Rat.mul Rat.sub Rat.inv

/-- Bridge between `List.getD` (used to mirror Python indexing in guarded
positions) and `getElem?`. -/
theorem getD_of_getElem? {α : Type} [Inhabited α] {l : List α} {k : Nat}
    {v : α} (h : l[k]? = some v) : l.getD k default = v := by
  simp [List.getD_eq_getElem?_getD, h]

/-- A successful hierarchical step either leaves the list unchanged or
overwrites exactly the child index, and only when that slot held the missing
sentinel. -/
theorem restore_step_cases {keypoints_current keypoints_ref : List KP}
    {affine_matrix : Option Affine} {reduce_confidence : Bool}
    {confidence_factor : ℚ} {restored r : List KP} {cp : Nat × Nat}
    (h : restore_step keypoints_current keypoints_ref affine_matrix
      reduce_confidence confidence_factor restored cp = some r) :
    r = restored ∨
      (is_keypoint_missing (restored.getD cp.1 default) ∧
        ∃ v, r = restored.set cp.1 v) := by
  simp only [restore_step] at h
  split at h
  · split at h
    · rename_i hmiss
      split at h
      · split at h
        · exact Or.inl (Option.some.inj h).symm
        · split at h
          · exact Option.noConfusion h
          · split at h
            · exact Or.inl (Option.some.inj h).symm
            · exact Or.inr ⟨hmiss, _, (Option.some.inj h).symm⟩
      · exact Or.inl (Option.some.inj h).symm
    · exact Or.inl (Option.some.inj h).symm
  · exact Or.inl (Option.some.inj h).symm

/-- A successful hierarchical step never changes the length of the list. -/
theorem restore_step_length {keypoints_current keypoints_ref : List KP}
    {affine_matrix : Option Affine} {reduce_confidence : Bool}
    {confidence_factor : ℚ} {restored r : List KP} {cp : Nat × Nat}
    (h : restore_step keypoints_current keypoints_ref affine_matrix
      reduce_confidence confidence_factor restored cp = some r) :
    r.length = restored.length := by
  rcases restore_step_cases h with rfl | ⟨-, v, rfl⟩
  · rfl
  · exact List.length_set ..

/-- A successful hierarchical step leaves every index other than the child
index untouched. -/
theorem restore_step_getElem_ne {keypoints_current keypoints_ref : List KP}
    {affine_matrix : Option Affine} {reduce_confidence : Bool}
    {confidence_factor : ℚ} {restored r : List KP} {cp : Nat × Nat}
    (h : restore_step keypoints_current keypoints_ref affine_matrix
      reduce_confidence confidence_factor restored cp = some r)
    {k : Nat} (hk : k ≠ cp.1) : r[k]? = restored[k]? := by
  rcases restore_step_cases h with rfl | ⟨-, v, rfl⟩
  · rfl
  · exact List.getElem?_set_ne (Ne.symm hk)

/-- A successful hierarchical step preserves every non-missing entry. -/
theorem restore_step_preserves_present
    {keypoints_current keypoints_ref : List KP}
    {affine_matrix : Option Affine} {reduce_confidence : Bool}
    {confidence_factor : ℚ} {restored r : List KP} {cp : Nat × Nat}
    (h : restore_step keypoints_current keypoints_ref affine_matrix
      reduce_confidence confidence_factor restored cp = some r)
    {k : Nat} {kp : KP} (hk : restored[k]? = some kp)
    (hpres : ¬ is_keypoint_missing kp) : r[k]? = some kp := by
  rcases restore_step_cases h with rfl | ⟨hmiss, v, rfl⟩
  · exact hk
  · rcases eq_or_ne k cp.1 with rfl | hne
    · rw [getD_of_getElem? hk] at hmiss
      exact absurd hmiss hpres
    · rw [List.getElem?_set_ne (Ne.symm hne)]
      exact hk

/-- Inversion of a successful traversal: the head step succeeded and the
tail traversal ran from its result. -/
theorem restore_loop_some_cons {keypoints_current keypoints_ref : List KP}
    {affine_matrix : Option Affine} {reduce_confidence : Bool}
    {confidence_factor : ℚ} {cp : Nat × Nat} {rest : List (Nat × Nat)}
    {restored out : List KP}
    (h : restore_loop keypoints_current keypoints_ref affine_matrix
      reduce_confidence confidence_factor (cp :: rest) restored = some out) :
    ∃ r, restore_step keypoints_current keypoints_ref affine_matrix
        reduce_confidence confidence_factor restored cp = some r ∧
      restore_loop keypoints_current keypoints_ref affine_matrix
        reduce_confidence confidence_factor rest r = some out := by
  simp only [restore_loop] at h
  split at h
  · exact Option.noConfusion h
  · rename_i r hr
    exact ⟨r, hr, h⟩

/-- Frame property of the traversal: an index that is not a child of any
hierarchy entry is never written. -/
theorem restore_loop_frame (keypoints_current keypoints_ref : List KP)
    (affine_matrix : Option Affine) (reduce_confidence : Bool)
    (confidence_factor : ℚ) (ci : Nat) :
    ∀ (hier : List (Nat × Nat)) (restored out : List KP),
      ci ∉ hier.map Prod.fst →
      restore_loop keypoints_current keypoints_ref affine_matrix
        reduce_confidence confidence_factor hier restored = some out →
      out[ci]? = restored[ci]? := by
  intro hier
  induction hier with
  | nil =>
    intro restored out _ h
    simp only [restore_loop] at h
    rw [← Option.some.inj h]
  | cons cp rest ih =>
    intro restored out hnm h
    rw [List.map_cons] at hnm
    have hne : ci ≠ cp.1 := fun hEq => hnm (hEq ▸ List.mem_cons_self _ _)
    have hnm2 : ci ∉ rest.map Prod.fst := fun hmem => hnm (List.mem_cons_of_mem _ hmem)
    obtain ⟨r, hstep, hloop⟩ := restore_loop_some_cons h
    rw [ih r out hnm2 hloop]
    exact restore_step_getElem_ne hstep hne

/-- The traversal never touches entries that are present (not the missing
sentinel). -/
theorem restore_loop_preserves_present (keypoints_current keypoints_ref : List KP)
    (affine_matrix : Option Affine) (reduce_confidence : Bool)
    (confidence_factor : ℚ) :
    ∀ (hier : List (Nat × Nat)) (restored out : List KP) (k : Nat) (kp : KP),
      restore_loop keypoints_current keypoints_ref affine_matrix
        reduce_confidence confidence_factor hier restored = some out →
      restored[k]? = some kp → ¬ is_keypoint_missing kp →
      out[k]? = some kp := by
  intro hier
  induction hier with
  | nil =>
    intro restored out k kp h hk _
    simp only [restore_loop] at h
    rw [← Option.some.inj h]
    exact hk
  | cons cp rest ih =>
    intro restored out k kp h hk hpres
    obtain ⟨r, hstep, hloop⟩ := restore_loop_some_cons h
    exact ih r out k kp hloop (restore_step_preserves_present hstep hk hpres) hpres

/-- Evaluation of a hierarchical step at a restorable child: the child slot
is overwritten with the parent position plus the (linear part of the)
transformed reference offset, and the propagated confidence. -/
theorem restore_step_value (keypoints_current keypoints_ref restored : List KP)
    (affine_matrix : Option Affine) (reduce_confidence : Bool)
    (confidence_factor : ℚ) (ci pi : Nat)
    (hciLen : ci < restored.length)
    (hcimiss : is_keypoint_missing (restored.getD ci default))
    (hpc : pi < keypoints_current.length)
    (hpr : pi < keypoints_ref.length)
    (hpmiss : ¬ is_keypoint_missing (keypoints_current.getD pi default))
    (hcr : ci < keypoints_ref.length)
    (hcrmiss : ¬ is_keypoint_missing (keypoints_ref.getD ci default)) :
    restore_step keypoints_current keypoints_ref affine_matrix
      reduce_confidence confidence_factor restored (ci, pi) =
    some (restored.set ci
      ⟨(keypoints_current.getD pi default).x +
          (match affine_matrix with
           | some M =>
             M.a * ((keypoints_ref.getD ci default).x -
                    (keypoints_ref.getD pi default).x) +
             M.b * ((keypoints_ref.getD ci default).y -
                    (keypoints_ref.getD pi default).y)
           | none => (keypoints_ref.getD ci default).x -
                     (keypoints_ref.getD pi default).x),
       (keypoints_current.getD pi default).y +
          (match affine_matrix with
           | some M =>
             M.c * ((keypoints_ref.getD ci default).x -
                    (keypoints_ref.getD pi default).x) +
             M.d * ((keypoints_ref.getD ci default).y -
                    (keypoints_ref.getD pi default).y)
           | none => (keypoints_ref.getD ci default).y -
                     (keypoints_ref.getD pi default).y),
       if reduce_confidence then
         min (keypoints_current.getD pi default).c
           (keypoints_ref.getD ci default).c * confidence_factor
       else
         min (keypoints_current.getD pi default).c
           (keypoints_ref.getD ci default).c⟩) := by
  have hrefget : keypoints_ref[ci]? = some (keypoints_ref.getD ci default) := by
    rw [List.getElem?_eq_getElem hcr]
    simp [List.getD_eq_getElem?_getD, List.getElem?_eq_getElem hcr]
  simp only [restore_step]
  rw [if_pos hciLen, if_pos hcimiss, if_pos ⟨hpc, hpr⟩, if_neg hpmiss, hrefget]
  simp only [if_neg hcrmiss]
  cases affine_matrix with
  | none => rfl
  | some M =>
    simp only [transform_point]
    norm_num

/-- Value of the traversal at a restorable child: if the child is missing
when the traversal starts, its parent is present in the current frame and
both have reference counterparts with the reference child present, then the
traversal (when it completes) writes exactly the parent position plus the
linear part of the transformed reference offset, with the propagated
confidence.  Child indices must be distinct (they are dict keys in the
source). -/
theorem restore_loop_value (keypoints_current keypoints_ref : List KP)
    (affine_matrix : Option Affine) (reduce_confidence : Bool)
    (confidence_factor : ℚ) (ci pi : Nat)
    (hpc : pi < keypoints_current.length)
    (hpr : pi < keypoints_ref.length)
    (hpmiss : ¬ is_keypoint_missing (keypoints_current.getD pi default))
    (hcr : ci < keypoints_ref.length)
    (hcrmiss : ¬ is_keypoint_missing (keypoints_ref.getD ci default)) :
    ∀ (hier : List (Nat × Nat)) (restored out : List KP),
      (hier.map Prod.fst).Nodup →
      (ci, pi) ∈ hier →
      ci < restored.length →
      is_keypoint_missing (restored.getD ci default) →
      restore_loop keypoints_current keypoints_ref affine_matrix
        reduce_confidence confidence_factor hier restored = some out →
      out[ci]? = some
        ⟨(keypoints_current.getD pi default).x +
            (match affine_matrix with
             | some M =>
               M.a * ((keypoints_ref.getD ci default).x -
                      (keypoints_ref.getD pi default).x) +
               M.b * ((keypoints_ref.getD ci default).y -
                      (keypoints_ref.getD pi default).y)
             | none => (keypoints_ref.getD ci default).x -
                       (keypoints_ref.getD pi default).x),
         (keypoints_current.getD pi default).y +
            (match affine_matrix with
             | some M =>
               M.c * ((keypoints_ref.getD ci default).x -
                      (keypoints_ref.getD pi default).x) +
               M.d * ((keypoints_ref.getD ci default).y -
                      (keypoints_ref.getD pi default).y)
             | none => (keypoints_ref.getD ci default).y -
                       (keypoints_ref.getD pi default).y),
         if reduce_confidence then
           min (keypoints_current.getD pi default).c
             (keypoints_ref.getD ci default).c * confidence_factor
         else
           min (keypoints_current.getD pi default).c
             (keypoints_ref.getD ci default).c⟩ := by
  intro hier
  induction hier with
  | nil =>
    intro restored out _ hmem
    exact absurd hmem (List.not_mem_nil _)
  | cons cp rest ih =>
    intro restored out hnodup hmem hciLen hcimiss h
    obtain ⟨r, hstep, hloop⟩ := restore_loop_some_cons h
    rw [List.map_cons] at hnodup
    have hnd1 : cp.1 ∉ rest.map Prod.fst := (List.nodup_cons.mp hnodup).1
    have hnd2 : (rest.map Prod.fst).Nodup := (List.nodup_cons.mp hnodup).2
    rcases List.mem_cons.mp hmem with hEq | hmem2
    · subst hEq
      have hstep2 := restore_step_value keypoints_current keypoints_ref restored
        affine_matrix reduce_confidence confidence_factor ci pi hciLen
        hcimiss hpc hpr hpmiss hcr hcrmiss
      rw [hstep2] at hstep
      have hr := Option.some.inj hstep
      rw [restore_loop_frame keypoints_current keypoints_ref affine_matrix
        reduce_confidence confidence_factor ci rest r out hnd1 hloop, ← hr]
      exact List.getElem?_set_self hciLen
    · have hne : ci ≠ cp.1 := by
        intro hEq
        exact hnd1 (hEq ▸ (List.mem_map.mpr ⟨(ci, pi), hmem2, rfl⟩))
      have hfr : r[ci]? = restored[ci]? := restore_step_getElem_ne hstep hne
      have hciLen2 : ci < r.length := by
        rw [restore_step_length hstep]; exact hciLen
      have hcimiss2 : is_keypoint_missing (r.getD ci default) := by
        have hrg : restored[ci]? = some (restored.getD ci default) := by
          rw [List.getElem?_eq_getElem hciLen]
          simp [List.getD_eq_getElem?_getD, List.getElem?_eq_getElem hciLen]
        rw [getD_of_getElem? (hfr.trans hrg)]
        exact hcimiss
      exact ih r out hnd2 hmem2 hciLen2 hcimiss2 hloop

/-- C1: for every group keypoint list, a missing child whose parent is
present in the current frame and whose reference counterpart is present is
written as `C[parent].xy + (a·ox + b·oy, c·ox + d·oy)` where
`(ox, oy) = R[child].xy − R[parent].xy` and `[[a,b,tx],[c,d,ty]]` is the
group's affine — the translation `(tx, ty)` contributes nothing — and, when
the affine is unavailable, as `C[parent].xy + (ox, oy)` exactly. -/
theorem c1_restored_position (solver : AffineSolver)
    (keypoints_current keypoints_ref : List KP)
    (hierarchy : List (Nat × Nat)) (reduce_confidence : Bool)
    (confidence_factor : ℚ) (ci pi : Nat) (out : List KP)
    (hnodup : (hierarchy.map Prod.fst).Nodup)
    (hmem : (ci, pi) ∈ hierarchy)
    (hciLen : ci < keypoints_current.length)
    (hcimiss : is_keypoint_missing (keypoints_current.getD ci default))
    (hpc : pi < keypoints_current.length)
    (hpr : pi < keypoints_ref.length)
    (hpmiss : ¬ is_keypoint_missing (keypoints_current.getD pi default))
    (hcr : ci < keypoints_ref.length)
    (hcrmiss : ¬ is_keypoint_missing (keypoints_ref.getD ci default))
    (hrun : restore_keypoints_relative solver keypoints_current
      (some keypoints_ref) hierarchy reduce_confidence confidence_factor =
      some out) :
    (∀ M, estimate_affine_transform solver keypoints_current keypoints_ref =
        some M →
      out[ci]? = some
        ⟨(keypoints_current.getD pi default).x +
           (M.a * ((keypoints_ref.getD ci default).x -
                   (keypoints_ref.getD pi default).x) +
            M.b * ((keypoints_ref.getD ci default).y -
                   (keypoints_ref.getD pi default).y)),
         (keypoints_current.getD pi default).y +
           (M.c * ((keypoints_ref.getD ci default).x -
                   (keypoints_ref.getD pi default).x) +
            M.d * ((keypoints_ref.getD ci default).y -
                   (keypoints_ref.getD pi default).y)),
         if reduce_confidence then
           min (keypoints_current.getD pi default).c
             (keypoints_ref.getD ci default).c * confidence_factor
         else
           min (keypoints_current.getD pi default).c
             (keypoints_ref.getD ci default).c⟩) ∧
    (estimate_affine_transform solver keypoints_current keypoints_ref =
        none →
      out[ci]? = some
        ⟨(keypoints_current.getD pi default).x +
           ((keypoints_ref.getD ci default).x -
            (keypoints_ref.getD pi default).x),
         (keypoints_current.getD pi default).y +
           ((keypoints_ref.getD ci default).y -
            (keypoints_ref.getD pi default).y),
         if reduce_confidence then
           min (keypoints_current.getD pi default).c
             (keypoints_ref.getD ci default).c * confidence_factor
         else
           min (keypoints_current.getD pi default).c
             (keypoints_ref.getD ci default).c⟩) := by
  simp only [restore_keypoints_relative] at hrun
  have hval := restore_loop_value keypoints_current keypoints_ref
    (estimate_affine_transform solver keypoints_current keypoints_ref)
    reduce_confidence confidence_factor ci pi hpc hpr hpmiss hcr hcrmiss
    hierarchy keypoints_current out hnodup hmem hciLen hcimiss hrun
  constructor
  · intro M hM
    rw [hM] at hval
    exact hval
  · intro hM
    rw [hM] at hval
    exact hval

/-- Closed instance of `c1_restored_position`: body keypoint 1 is missing,
its parent 0 sits at `(100, 50)`, the reference offset is `(4, 2)` and the
estimated affine is `[[2, 0, 5], [0, 3, 7]]`, so the restored position is
`(100 + 2·4, 50 + 3·2) = (108, 56)` — the translation `(5, 7)` does not
appear. -/
theorem c1_witness :
    estimate_affine_transform test_solver c1cur c1ref =
      some ⟨2, 0, 5, 0, 3, 7⟩ ∧
    restore_keypoints_relative test_solver c1cur (some c1ref) BODY_HIERARCHY
      true (7/10) = some c1out ∧
    c1out[1]? = some ⟨108, 56, 7/10⟩ := by
  refine ⟨by decide, by decide, ?_⟩
  have h := (c1_restored_position test_solver c1cur c1ref BODY_HIERARCHY true
    (7/10) 1 0 c1out (by decide) (by decide) (by decide) (by decide)
    (by decide) (by decide) (by decide) (by decide) (by decide) (by decide)).1
    ⟨2, 0, 5, 0, 3, 7⟩ (by decide)
  exact h.trans (by decide)

/-- C5: every keypoint restored by the hierarchical restorer receives a
confidence at most `min(current parent confidence, reference child
confidence)`; exactly that minimum when reduction is disabled, and that
minimum times the factor when reduction is enabled. -/
theorem c5_restored_confidence (solver : AffineSolver)
    (keypoints_current keypoints_ref : List KP)
    (hierarchy : List (Nat × Nat)) (reduce_confidence : Bool)
    (confidence_factor : ℚ) (ci pi : Nat) (out : List KP)
    (hnodup : (hierarchy.map Prod.fst).Nodup)
    (hmem : (ci, pi) ∈ hierarchy)
    (hciLen : ci < keypoints_current.length)
    (hcimiss : is_keypoint_missing (keypoints_current.getD ci default))
    (hpc : pi < keypoints_current.length)
    (hpr : pi < keypoints_ref.length)
    (hpmiss : ¬ is_keypoint_missing (keypoints_current.getD pi default))
    (hcr : ci < keypoints_ref.length)
    (hcrmiss : ¬ is_keypoint_missing (keypoints_ref.getD ci default))
    (hf0 : 0 ≤ confidence_factor) (hf1 : confidence_factor ≤ 1)
    (hc1 : 0 ≤ (keypoints_current.getD pi default).c)
    (hc2 : 0 ≤ (keypoints_ref.getD ci default).c)
    (hrun : restore_keypoints_relative solver keypoints_current
      (some keypoints_ref) hierarchy reduce_confidence confidence_factor =
      some out) :
    (out.getD ci default).c ≤
      min (keypoints_current.getD pi default).c
        (keypoints_ref.getD ci default).c ∧
    (reduce_confidence = false →
      (out.getD ci default).c =
        min (keypoints_current.getD pi default).c
          (keypoints_ref.getD ci default).c) ∧
    (reduce_confidence = true →
      (out.getD ci default).c =
        min (keypoints_current.getD pi default).c
          (keypoints_ref.getD ci default).c * confidence_factor) := by
  simp only [restore_keypoints_relative] at hrun
  have hval := restore_loop_value keypoints_current keypoints_ref
    (estimate_affine_transform solver keypoints_current keypoints_ref)
    reduce_confidence confidence_factor ci pi hpc hpr hpmiss hcr hcrmiss
    hierarchy keypoints_current out hnodup hmem hciLen hcimiss hrun
  rw [getD_of_getElem? hval]
  have hmin : 0 ≤ min (keypoints_current.getD pi default).c
      (keypoints_ref.getD ci default).c := le_min hc1 hc2
  cases reduce_confidence with
  | false =>
    refine ⟨le_of_eq rfl, fun _ => rfl, fun hcontra => ?_⟩
    exact absurd hcontra (by simp)
  | true =>
    refine ⟨?_, fun hcontra => absurd hcontra (by simp), fun _ => rfl⟩
    exact mul_le_of_le_one_right hmin hf1

/-- Closed instance of `c5_restored_confidence`: the restored confidence is
`min(9/10, 8/10) · 7/10 = 14/25`, which is at most the minimum. -/
theorem c5_witness :
    (c5out.getD 1 default).c ≤
      min ((c5cur.getD 0 default).c) ((c5ref.getD 1 default).c) ∧
    (c5out.getD 1 default).c =
      min ((c5cur.getD 0 default).c) ((c5ref.getD 1 default).c) * (7/10) ∧
    (c5out.getD 1 default).c = 14/25 := by
  have h := c5_restored_confidence test_solver c5cur c5ref [(1, 0)] true
    (7/10) 1 0 c5out (by decide) (by decide) (by decide) (by decide)
    (by decide) (by decide) (by decide) (by decide) (by decide) (by decide)
    (by decide) (by decide) (by decide) (by decide)
  exact ⟨h.1, h.2.2 rfl, by decide⟩

/-- C2: contrary to the claim, the parent-present check of the hierarchical
restorer reads the original current frame, so a child reached after its own
parent was restored earlier in the same traversal is left missing.  In the
hand group only the palm (0) is present; the traversal restores keypoint 1
(child of 0) but then skips keypoint 2 (child of 1) even though 1 was just
restored and 2 has a present reference counterpart. -/
theorem c2_no_cascade_within_traversal :
    is_keypoint_missing (c2cur.getD 1 default) ∧
    is_keypoint_missing (c2cur.getD 2 default) ∧
    ¬ is_keypoint_missing (c2ref.getD 2 default) ∧
    restore_keypoints_relative test_solver c2cur (some c2ref) HAND_HIERARCHY
      true (7/10) = some c2out ∧
    ¬ is_keypoint_missing (c2out.getD 1 default) ∧
    is_keypoint_missing (c2out.getD 2 default) := by decide

/-- C8: contrary to the claim, the hierarchical restorer's read of the
reference child is not bounds-checked: with a current group of three
keypoints (the third missing, the first present) and a reference group of a
single keypoint, processing child 2 reads `keypoints_ref[2]` out of bounds
and the whole group restore aborts (Python `IndexError`). -/
theorem c8_shorter_reference_aborts :
    ¬ is_keypoint_missing (c8cur.getD 0 default) ∧
    is_keypoint_missing (c8cur.getD 2 default) ∧
    c8ref.length < c8cur.length ∧
    restore_keypoints_relative test_solver c8cur (some c8ref) BODY_HIERARCHY
      true (7/10) = none := by decide

/-- A successful face step either leaves the list unchanged or overwrites
exactly index `i`, and only when that slot held the missing sentinel. -/
theorem face_restore_step_cases {keypoints_current keypoints_ref : List KP}
    {affine_matrix : Option Affine} {reduce_confidence : Bool}
    {confidence_factor : ℚ} {restored r : List KP} {i : Nat}
    (h : face_restore_step keypoints_current keypoints_ref affine_matrix
      reduce_confidence confidence_factor restored i = some r) :
    r = restored ∨
      (is_keypoint_missing (restored.getD i default) ∧
        ∃ v, r = restored.set i v) := by
  simp only [face_restore_step] at h
  split at h
  · rename_i hmiss
    split at h
    · split at h
      · exact Or.inl (Option.some.inj h).symm
      · split at h
        · exact Or.inl (Option.some.inj h).symm
        · split at h
          · exact Option.noConfusion h
          · exact Or.inr ⟨hmiss, _, (Option.some.inj h).symm⟩
    · exact Or.inl (Option.some.inj h).symm
  · exact Or.inl (Option.some.inj h).symm

/-- A successful face step preserves every non-missing entry. -/
theorem face_restore_step_preserves_present
    {keypoints_current keypoints_ref : List KP}
    {affine_matrix : Option Affine} {reduce_confidence : Bool}
    {confidence_factor : ℚ} {restored r : List KP} {i : Nat}
    (h : face_restore_step keypoints_current keypoints_ref affine_matrix
      reduce_confidence confidence_factor restored i = some r)
    {k : Nat} {kp : KP} (hk : restored[k]? = some kp)
    (hpres : ¬ is_keypoint_missing kp) : r[k]? = some kp := by
  rcases face_restore_step_cases h with rfl | ⟨hmiss, v, rfl⟩
  · exact hk
  · rcases eq_or_ne k i with rfl | hne
    · rw [getD_of_getElem? hk] at hmiss
      exact absurd hmiss hpres
    · rw [List.getElem?_set_ne (Ne.symm hne)]
      exact hk

/-- Inversion of a successful face traversal. -/
theorem face_restore_loop_some_cons
    {keypoints_current keypoints_ref : List KP}
    {affine_matrix : Option Affine} {reduce_confidence : Bool}
    {confidence_factor : ℚ} {i : Nat} {rest : List Nat}
    {restored out : List KP}
    (h : face_restore_loop keypoints_current keypoints_ref affine_matrix
      reduce_confidence confidence_factor (i :: rest) restored = some out) :
    ∃ r, face_restore_step keypoints_current keypoints_ref affine_matrix
        reduce_confidence confidence_factor restored i = some r ∧
      face_restore_loop keypoints_current keypoints_ref affine_matrix
        reduce_confidence confidence_factor rest r = some out := by
  simp only [face_restore_loop] at h
  split at h
  · exact Option.noConfusion h
  · rename_i r hr
    exact ⟨r, hr, h⟩

/-- The face traversal never touches entries that are present. -/
theorem face_restore_loop_preserves_present
    (keypoints_current keypoints_ref : List KP)
    (affine_matrix : Option Affine) (reduce_confidence : Bool)
    (confidence_factor : ℚ) :
    ∀ (idxs : List Nat) (restored out : List KP) (k : Nat) (kp : KP),
      face_restore_loop keypoints_current keypoints_ref affine_matrix
        reduce_confidence confidence_factor idxs restored = some out →
      restored[k]? = some kp → ¬ is_keypoint_missing kp →
      out[k]? = some kp := by
  intro idxs
  induction idxs with
  | nil =>
    intro restored out k kp h hk _
    simp only [face_restore_loop] at h
    rw [← Option.some.inj h]
    exact hk
  | cons i rest ih =>
    intro restored out k kp h hk hpres
    obtain ⟨r, hstep, hloop⟩ := face_restore_loop_some_cons h
    exact ih r out k kp hloop
      (face_restore_step_preserves_present hstep hk hpres) hpres

/-- C6: both the hierarchical restorer and the face restorer leave every
keypoint that is present in the current frame (not the `(0,0,0)` sentinel)
unchanged in `x`, `y` and confidence. -/
theorem c6_present_keypoints_unchanged (solver : AffineSolver)
    (keypoints_current : List KP) (keypoints_ref : Option (List KP))
    (reduce_confidence : Bool) (confidence_factor : ℚ) (k : Nat) (kp : KP)
    (hk : keypoints_current[k]? = some kp)
    (hpres : ¬ is_keypoint_missing kp) :
    (∀ (hierarchy : List (Nat × Nat)) (out : List KP),
      restore_keypoints_relative solver keypoints_current keypoints_ref
        hierarchy reduce_confidence confidence_factor = some out →
      out[k]? = some kp) ∧
    (∀ out : List KP,
      restore_face_keypoints solver keypoints_current keypoints_ref
        reduce_confidence confidence_factor = some out →
      out[k]? = some kp) := by
  constructor
  · intro hierarchy out hrun
    cases keypoints_ref with
    | none =>
      simp only [restore_keypoints_relative] at hrun
      rw [← Option.some.inj hrun]
      exact hk
    | some kref =>
      simp only [restore_keypoints_relative] at hrun
      exact restore_loop_preserves_present keypoints_current kref _
        reduce_confidence confidence_factor hierarchy keypoints_current out
        k kp hrun hk hpres
  · intro out hrun
    cases keypoints_ref with
    | none =>
      simp only [restore_face_keypoints] at hrun
      rw [← Option.some.inj hrun]
      exact hk
    | some kref =>
      simp only [restore_face_keypoints] at hrun
      exact face_restore_loop_preserves_present keypoints_current kref _
        reduce_confidence confidence_factor _ keypoints_current out
        k kp hrun hk hpres

/-- Closed instance of `c6_present_keypoints_unchanged`: keypoint 0 of the
current frame is present and survives both the hierarchical restorer (body
hierarchy) and the face restorer unchanged, even though keypoint 1 is
restored around it. -/
theorem c6_witness :
    restore_keypoints_relative test_solver c6cur (some c6ref) BODY_HIERARCHY
      true (7/10) = some c6body_out ∧
    c6body_out[0]? = some ⟨5, 5, 1⟩ ∧
    restore_face_keypoints test_solver c6cur (some c6ref) true (7/10) =
      some c6face_out ∧
    c6face_out[0]? = some ⟨5, 5, 1⟩ := by
  have h := c6_present_keypoints_unchanged test_solver c6cur (some c6ref)
    true (7/10) 0 ⟨5, 5, 1⟩ (by decide) (by decide)
  exact ⟨by decide, h.1 BODY_HIERARCHY c6body_out (by decide), by decide,
    h.2 c6face_out (by decide)⟩

/-- Soundness of the anchor scan state: any produced `(index, distance)`
pair names a present candidate together with its squared distance from the
reference position of the missing point to the candidate's current-frame
position. -/
theorem closest_scan_sound (keypoints_current : List KP) (x_ref y_ref : ℚ) :
    ∀ (idxs : List Nat) (best : Option (Nat × ℚ)) (jd : Nat × ℚ),
      (∀ jd0, best = some jd0 →
        ((keypoints_current.getD jd0.1 default).c > 3/10 ∧
          ¬ is_keypoint_missing (keypoints_current.getD jd0.1 default)) ∧
        jd0.2 = (x_ref - (keypoints_current.getD jd0.1 default).x) ^ 2 +
                (y_ref - (keypoints_current.getD jd0.1 default).y) ^ 2) →
      closest_scan keypoints_current x_ref y_ref idxs best = some jd →
      ((keypoints_current.getD jd.1 default).c > 3/10 ∧
        ¬ is_keypoint_missing (keypoints_current.getD jd.1 default)) ∧
      jd.2 = (x_ref - (keypoints_current.getD jd.1 default).x) ^ 2 +
             (y_ref - (keypoints_current.getD jd.1 default).y) ^ 2 := by
  intro idxs
  induction idxs with
  | nil =>
    intro best jd hbest h
    exact hbest jd h
  | cons k rest ih =>
    intro best jd hbest h
    simp only [closest_scan] at h
    split at h
    · rename_i hk
      split at h
      · refine ih _ jd (fun jd0 h0 => ?_) h
        cases Option.some.inj h0
        exact ⟨hk, rfl⟩
      · rename_i bj bd
        split at h
        · refine ih _ jd (fun jd0 h0 => ?_) h
          cases Option.some.inj h0
          exact ⟨hk, rfl⟩
        · refine ih _ jd (fun jd0 h0 => ?_) h
          cases Option.some.inj h0
          exact hbest (bj, bd) rfl
    · exact ih best jd hbest h

/-- The best distance tracked by the anchor scan never increases. -/
theorem closest_scan_mono (keypoints_current : List KP) (x_ref y_ref : ℚ) :
    ∀ (idxs : List Nat) (j0 : Nat) (d0 : ℚ) (jd : Nat × ℚ),
      closest_scan keypoints_current x_ref y_ref idxs (some (j0, d0)) =
        some jd →
      jd.2 ≤ d0 := by
  intro idxs
  induction idxs with
  | nil =>
    intro j0 d0 jd h
    simp only [closest_scan] at h
    cases Option.some.inj h
    exact le_refl _
  | cons k rest ih =>
    intro j0 d0 jd h
    simp only [closest_scan] at h
    split at h
    · split at h
      · rename_i hlt
        exact le_trans (ih _ _ jd h) (le_of_lt hlt)
      · exact ih _ _ jd h
    · exact ih _ _ jd h

/-- Minimality of the anchor scan: the final best distance is at most the
squared current-frame distance of every present candidate in the scanned
index list. -/
theorem closest_scan_min (keypoints_current : List KP) (x_ref y_ref : ℚ) :
    ∀ (idxs : List Nat) (best : Option (Nat × ℚ)) (jd : Nat × ℚ),
      closest_scan keypoints_current x_ref y_ref idxs best = some jd →
      ∀ k ∈ idxs,
        (keypoints_current.getD k default).c > 3/10 →
        ¬ is_keypoint_missing (keypoints_current.getD k default) →
        jd.2 ≤ (x_ref - (keypoints_current.getD k default).x) ^ 2 +
               (y_ref - (keypoints_current.getD k default).y) ^ 2 := by
  intro idxs
  induction idxs with
  | nil =>
    intro best jd _ k hk
    exact absurd hk (List.not_mem_nil _)
  | cons k0 rest ih =>
    intro best jd h k hk hc hm
    simp only [closest_scan] at h
    split at h
    · rename_i hpres
      rcases List.mem_cons.mp hk with rfl | hk2
      · split at h
        · exact closest_scan_mono keypoints_current x_ref y_ref rest _ _ jd h
        · split at h
          · exact closest_scan_mono keypoints_current x_ref y_ref rest _ _
              jd h
          · rename_i hnlt
            exact le_trans
              (closest_scan_mono keypoints_current x_ref y_ref rest _ _ jd h)
              (not_lt.mp hnlt)
      · split at h
        · exact ih _ jd h k hk2 hc hm
        · split at h
          · exact ih _ jd h k hk2 hc hm
          · exact ih _ jd h k hk2 hc hm
    · rename_i hpres
      rcases List.mem_cons.mp hk with rfl | hk2
      · exact absurd ⟨hc, hm⟩ hpres
      · exact ih best jd h k hk2 hc hm

/-- Amended C3: for a missing face point with reference position
`(x_ref, y_ref)`, the anchor chosen by the face restorer is a currently
present point (confidence above `0.3`, not the sentinel) whose
*current-frame* position minimizes the squared Euclidean distance to
`(x_ref, y_ref)` among all present points — the distance is measured from
the reference position of the missing point to the candidates' current
positions, not between reference positions. -/
theorem c3_anchor_minimizes_current_distance (keypoints_current : List KP)
    (x_ref y_ref : ℚ) (j : Nat)
    (h : closest_existing_idx keypoints_current x_ref y_ref = some j) :
    ((keypoints_current.getD j default).c > 3/10 ∧
      ¬ is_keypoint_missing (keypoints_current.getD j default)) ∧
    ∀ k, k < keypoints_current.length →
      (keypoints_current.getD k default).c > 3/10 →
      ¬ is_keypoint_missing (keypoints_current.getD k default) →
      (x_ref - (keypoints_current.getD j default).x) ^ 2 +
        (y_ref - (keypoints_current.getD j default).y) ^ 2 ≤
      (x_ref - (keypoints_current.getD k default).x) ^ 2 +
        (y_ref - (keypoints_current.getD k default).y) ^ 2 := by
  unfold closest_existing_idx at h
  cases hscan : closest_scan keypoints_current x_ref y_ref
      (List.range keypoints_current.length) none with
  | none =>
    rw [hscan] at h
    exact Option.noConfusion h
  | some jd =>
    rw [hscan] at h
    have hj : jd.1 = j := Option.some.inj h
    subst hj
    have hsound := closest_scan_sound keypoints_current x_ref y_ref
      (List.range keypoints_current.length) none jd
      (fun jd0 h0 => Option.noConfusion h0) hscan
    have hmin := closest_scan_min keypoints_current x_ref y_ref
      (List.range keypoints_current.length) none jd hscan
    refine ⟨hsound.1, fun k hk hc hm => ?_⟩
    rw [← hsound.2]
    exact hmin k (List.mem_range.mpr hk) hc hm

/-- C3 counterexample: on the concrete face instance, point 2 is missing
with a present reference counterpart; candidate 1 is present and is the
strictly nearest neighbour of `R[2]` in reference space, yet the restorer
selects index 0 (whose current-frame position is nearer to `R[2]`), and the
restored position `(160, -10)` is computed from anchor 0, not from the
reference-space nearest candidate 1 (which would give `(10, 1)`). -/
theorem c3_counterexample :
    is_keypoint_missing (c3cur.getD 2 default) ∧
    ¬ is_keypoint_missing (c3ref.getD 2 default) ∧
    (c3cur.getD 1 default).c > 3/10 ∧
    ¬ is_keypoint_missing (c3cur.getD 1 default) ∧
    ((c3ref.getD 2 default).x - (c3ref.getD 1 default).x) ^ 2 +
        ((c3ref.getD 2 default).y - (c3ref.getD 1 default).y) ^ 2 <
      ((c3ref.getD 2 default).x - (c3ref.getD 0 default).x) ^ 2 +
        ((c3ref.getD 2 default).y - (c3ref.getD 0 default).y) ^ 2 ∧
    closest_existing_idx c3cur (c3ref.getD 2 default).x
      (c3ref.getD 2 default).y = some 0 ∧
    restore_face_keypoints test_solver c3cur (some c3ref) true (7/10) =
      some c3out ∧
    c3out.getD 2 default = ⟨160, -10, 7/10⟩ ∧
    (160 : ℚ) ≠ 10 := by decide

/-- Closed instance of `c3_anchor_minimizes_current_distance` at the
concrete face input: the selected anchor 0 is present and its current-frame
distance to the reference position `(60, 0)` is minimal among present
candidates (instantiated at candidate 1). -/
theorem c3_witness :
    closest_existing_idx c3cur 60 0 = some 0 ∧
    ((c3cur.getD 0 default).c > 3/10 ∧
      ¬ is_keypoint_missing (c3cur.getD 0 default)) ∧
    (60 - (c3cur.getD 0 default).x) ^ 2 + (0 - (c3cur.getD 0 default).y) ^ 2 ≤
      (60 - (c3cur.getD 1 default).x) ^ 2 +
        (0 - (c3cur.getD 1 default).y) ^ 2 := by
  have h := c3_anchor_minimizes_current_distance c3cur 60 0 0 (by decide)
  exact ⟨by decide, h.1, h.2 1 (by decide) (by decide) (by decide)⟩

/-- The correspondence fold of `_estimate_affine_transform`, generalized
over the accumulator: it appends exactly the pairs of indices passing both
confidence-and-presence checks. -/
theorem correspondence_fold (keypoints_current keypoints_ref : List KP) :
    ∀ (idxs : List Nat) (acc : List ((ℚ × ℚ) × (ℚ × ℚ))),
      idxs.foldl
        (fun acc i =>
          let kc := keypoints_current.getD i default
          let kr := keypoints_ref.getD i default
          if kr.c > 3/10 ∧ ¬ is_keypoint_missing kr then
            if kc.c > 3/10 ∧ ¬ is_keypoint_missing kc then
              acc ++ [((kr.x, kr.y), (kc.x, kc.y))]
            else acc
          else acc)
        acc =
      acc ++ idxs.filterMap
        (fun i =>
          if ((keypoints_ref.getD i default).c > 3/10 ∧
              ¬ is_keypoint_missing (keypoints_ref.getD i default)) ∧
             ((keypoints_current.getD i default).c > 3/10 ∧
              ¬ is_keypoint_missing (keypoints_current.getD i default)) then
            some (((keypoints_ref.getD i default).x,
                   (keypoints_ref.getD i default).y),
                  ((keypoints_current.getD i default).x,
                   (keypoints_current.getD i default).y))
          else none) := by
  intro idxs
  induction idxs with
  | nil =>
    intro acc
    simp
  | cons i rest ih =>
    intro acc
    simp only [List.foldl_cons, List.filterMap_cons]
    rw [ih]
    by_cases hr : (keypoints_ref.getD i default).c > 3/10 ∧
        ¬ is_keypoint_missing (keypoints_ref.getD i default)
    · by_cases hc : (keypoints_current.getD i default).c > 3/10 ∧
          ¬ is_keypoint_missing (keypoints_current.getD i default)
      · have hcond : ((keypoints_ref.getD i default).c > 3/10 ∧
            ¬ is_keypoint_missing (keypoints_ref.getD i default)) ∧
            ((keypoints_current.getD i default).c > 3/10 ∧
            ¬ is_keypoint_missing (keypoints_current.getD i default)) :=
          ⟨hr, hc⟩
        rw [if_pos hr, if_pos hc, if_pos hcond, List.append_assoc]
        rfl
      · have hcond : ¬ (((keypoints_ref.getD i default).c > 3/10 ∧
            ¬ is_keypoint_missing (keypoints_ref.getD i default)) ∧
            ((keypoints_current.getD i default).c > 3/10 ∧
            ¬ is_keypoint_missing (keypoints_current.getD i default))) :=
          fun hand => hc hand.2
        rw [if_pos hr, if_neg hc, if_neg hcond]
    · have hcond : ¬ (((keypoints_ref.getD i default).c > 3/10 ∧
          ¬ is_keypoint_missing (keypoints_ref.getD i default)) ∧
          ((keypoints_current.getD i default).c > 3/10 ∧
          ¬ is_keypoint_missing (keypoints_current.getD i default))) :=
        fun hand => hr hand.1
      rw [if_neg hr, if_neg hcond]

/-- C4: the affine estimator's correspondence list holds, for each index `i`
below the length of the shorter list, the pair `(reference[i], current[i])`
iff both keypoints have confidence above `0.3` and neither is the missing
sentinel; whenever fewer than three correspondences exist the estimator
returns unavailable, in which case the offset transformer is the
identity. -/
theorem c4_correspondence_set (solver : AffineSolver)
    (keypoints_current keypoints_ref : List KP) :
    correspondence_pairs keypoints_current keypoints_ref =
      (List.range
        (min keypoints_current.length keypoints_ref.length)).filterMap
        (fun i =>
          if ((keypoints_ref.getD i default).c > 3/10 ∧
              ¬ is_keypoint_missing (keypoints_ref.getD i default)) ∧
             ((keypoints_current.getD i default).c > 3/10 ∧
              ¬ is_keypoint_missing (keypoints_current.getD i default)) then
            some (((keypoints_ref.getD i default).x,
                   (keypoints_ref.getD i default).y),
                  ((keypoints_current.getD i default).x,
                   (keypoints_current.getD i default).y))
          else none) ∧
    ((correspondence_pairs keypoints_current keypoints_ref).length < 3 →
      estimate_affine_transform solver keypoints_current keypoints_ref =
        none) ∧
    (∀ p : ℚ × ℚ, transform_point p none = p) := by
  refine ⟨?_, ?_, fun p => rfl⟩
  · have h := correspondence_fold keypoints_current keypoints_ref
      (List.range
        (min keypoints_current.length keypoints_ref.length)) []
    simpa [correspondence_pairs] using h
  · intro hlen
    simp only [estimate_affine_transform]
    rw [if_pos hlen]

/-- Closed instance of `c4_correspondence_set`: one correspondence is
gathered, which is fewer than three, so the estimator is unavailable and the
offset transformer acts as the identity. -/
theorem c4_witness :
    correspondence_pairs c4cur c4ref = [((2, 2), (1, 1))] ∧
    (correspondence_pairs c4cur c4ref).length < 3 ∧
    estimate_affine_transform test_solver c4cur c4ref = none ∧
    transform_point (3, 4) none = (3, 4) := by
  have h := c4_correspondence_set test_solver c4cur c4ref
  exact ⟨by decide, by decide, h.2.1 (by decide), h.2.2 (3, 4)⟩

/-- Per-triple behaviour of the clipping loop: the `j`-th complete triple of
the output is the sentinel iff the input triple lies outside the canvas,
and is the unchanged input triple otherwise. -/
theorem getTriple_zero_out_list (canvas_height canvas_width : ℚ) :
    ∀ (j : Nat) (l : List ℚ) (x y c : ℚ),
      getTriple l j = some (x, y, c) →
      getTriple (zero_out_list canvas_height canvas_width l) j =
        some (if x < 0 ∨ x ≥ canvas_width ∨ y < 0 ∨ y ≥ canvas_height
              then ((0 : ℚ), (0 : ℚ), (0 : ℚ)) else (x, y, c)) := by
  intro j
  induction j with
  | zero =>
    intro l x y c h
    match l with
    | [] => exact absurd h (by simp [getTriple])
    | [a] => exact absurd h (by simp [getTriple])
    | [a, b] => exact absurd h (by simp [getTriple])
    | a :: b :: d :: rest =>
      simp only [getTriple, Option.some.injEq, Prod.mk.injEq] at h
      obtain ⟨rfl, rfl, rfl⟩ := h
      simp only [zero_out_list]
      split
      · rfl
      · rfl
  | succ j ih =>
    intro l x y c h
    match l with
    | [] => exact absurd h (by simp [getTriple])
    | [a] => exact absurd h (by simp [getTriple])
    | [a, b] => exact absurd h (by simp [getTriple])
    | a :: b :: d :: rest =>
      simp only [getTriple] at h
      simp only [zero_out_list]
      split
      · exact ih rest x y c h
      · exact ih rest x y c h

/-- Clipping a flat keypoint list twice equals clipping it once, for a
positive canvas. -/
theorem zero_out_list_idem (canvas_height canvas_width : ℚ)
    (hw : 0 < canvas_width) (hh : 0 < canvas_height) :
    ∀ l : List ℚ,
      zero_out_list canvas_height canvas_width
        (zero_out_list canvas_height canvas_width l) =
      zero_out_list canvas_height canvas_width l
  | [] => rfl
  | [x] => rfl
  | [x, y] => rfl
  | x :: y :: c :: rest => by
    by_cases hcond : x < 0 ∨ x ≥ canvas_width ∨ y < 0 ∨ y ≥ canvas_height
    · simp only [zero_out_list, if_pos hcond]
      have h0 : ¬ ((0 : ℚ) < 0 ∨ (0 : ℚ) ≥ canvas_width ∨ (0 : ℚ) < 0 ∨
          (0 : ℚ) ≥ canvas_height) := by
        push_neg
        exact ⟨le_refl 0, hw, le_refl 0, hh⟩
      simp only [zero_out_list, if_neg h0]
      rw [zero_out_list_idem canvas_height canvas_width hw hh rest]
    · simp only [zero_out_list, if_neg hcond]
      rw [zero_out_list_idem canvas_height canvas_width hw hh rest]

/-- Clipping a person twice equals clipping once, for a positive canvas. -/
theorem zero_out_person_idem (canvas_height canvas_width : ℚ)
    (hw : 0 < canvas_width) (hh : 0 < canvas_height) (p : Person) :
    zero_out_person canvas_height canvas_width
      (zero_out_person canvas_height canvas_width p) =
    zero_out_person canvas_height canvas_width p := by
  have hf : ∀ o : Option (List ℚ),
      (o.map (zero_out_list canvas_height canvas_width)).map
        (zero_out_list canvas_height canvas_width) =
      o.map (zero_out_list canvas_height canvas_width) := by
    intro o
    cases o with
    | none => rfl
    | some l =>
      simp [zero_out_list_idem canvas_height canvas_width hw hh l]
  simp [zero_out_person, hf]

/-- The container-level clipper is idempotent for a positive canvas. -/
theorem zero_out_of_canvas_idem (canvas_height canvas_width : ℚ)
    (hw : 0 < canvas_width) (hh : 0 < canvas_height)
    (pose_data : PoseContainer) :
    zero_out_of_canvas canvas_height canvas_width
      (zero_out_of_canvas canvas_height canvas_width pose_data) =
    zero_out_of_canvas canvas_height canvas_width pose_data := by
  cases pose_data with
  | dictPeople h w ps =>
    cases ps with
    | nil => rfl
    | cons p ps =>
      simp [zero_out_of_canvas, get_person0_zero, replace_person0,
        zero_out_person_idem canvas_height canvas_width hw hh]
  | listTopDict h w ps =>
    cases ps with
    | nil => rfl
    | cons p ps =>
      simp [zero_out_of_canvas, get_person0_zero, replace_person0,
        zero_out_person_idem canvas_height canvas_width hw hh]
  | listPersons ps =>
    cases ps with
    | nil => rfl
    | cons p ps =>
      by_cases hp : p.pose_keypoints_2d.isSome || p.face_keypoints_2d.isSome
      · have hsome : get_person0_zero (PoseContainer.listPersons (p :: ps)) =
            some p := by
          simp only [get_person0_zero]
          rw [if_pos hp]
        have hp2 : ((zero_out_person canvas_height canvas_width
            p).pose_keypoints_2d.isSome ||
            (zero_out_person canvas_height canvas_width
            p).face_keypoints_2d.isSome) = true := by
          simpa [zero_out_person, Option.isSome_map'] using hp
        have hsome2 : get_person0_zero (PoseContainer.listPersons
            (zero_out_person canvas_height canvas_width p :: ps)) =
            some (zero_out_person canvas_height canvas_width p) := by
          simp only [get_person0_zero]
          rw [if_pos hp2]
        have hz1 : zero_out_of_canvas canvas_height canvas_width
            (PoseContainer.listPersons (p :: ps)) =
            PoseContainer.listPersons
              (zero_out_person canvas_height canvas_width p :: ps) := by
          simp only [zero_out_of_canvas, hsome, replace_person0]
        rw [hz1]
        simp only [zero_out_of_canvas, hsome2, replace_person0,
          zero_out_person_idem canvas_height canvas_width hw hh]
      · have hnone : get_person0_zero (PoseContainer.listPersons (p :: ps)) =
            none := by
          simp only [get_person0_zero]
          rw [if_neg hp]
        simp only [zero_out_of_canvas, hnone]
  | unsupported => rfl

/-- C7: the Canvas Clipper replaces a keypoint triple with the `(0, 0, 0)`
sentinel iff `x < 0 ∨ x ≥ width ∨ y < 0 ∨ y ≥ height`, and it is
idempotent: for every frame and every positive canvas width and height,
clipping an already-clipped frame produces no further change. -/
theorem c7_canvas_clipper :
    (∀ (canvas_height canvas_width : ℚ) (l : List ℚ) (j : Nat) (x y c : ℚ),
      getTriple l j = some (x, y, c) →
      getTriple (zero_out_list canvas_height canvas_width l) j =
        some (if x < 0 ∨ x ≥ canvas_width ∨ y < 0 ∨ y ≥ canvas_height
              then ((0 : ℚ), (0 : ℚ), (0 : ℚ)) else (x, y, c))) ∧
    (∀ (canvas_height canvas_width : ℚ) (pose_data : PoseContainer),
      0 < canvas_width → 0 < canvas_height →
      zero_out_of_canvas canvas_height canvas_width
        (zero_out_of_canvas canvas_height canvas_width pose_data) =
      zero_out_of_canvas canvas_height canvas_width pose_data) :=
  ⟨fun ch cw l j => getTriple_zero_out_list ch cw j l,
   fun ch cw pd hw hh => zero_out_of_canvas_idem ch cw hw hh pd⟩

/-- Closed instance of `c7_canvas_clipper`: the out-of-canvas triple is
zeroed, the in-canvas triple survives, and re-clipping the clipped frame
changes nothing. -/
theorem c7_witness :
    getTriple (zero_out_list 512 512 [600, 100, 1, 50, 50, 9/10, 1, 2]) 0 =
      some (0, 0, 0) ∧
    getTriple (zero_out_list 512 512 [600, 100, 1, 50, 50, 9/10, 1, 2]) 1 =
      some (50, 50, 9/10) ∧
    zero_out_of_canvas 512 512 (zero_out_of_canvas 512 512 c7frame) =
      zero_out_of_canvas 512 512 c7frame := by
  refine ⟨?_, ?_, c7_canvas_clipper.2 512 512 c7frame (by decide) (by decide)⟩
  · exact (c7_canvas_clipper.1 512 512 _ 0 600 100 1 (by decide)).trans
      (by decide)
  · exact (c7_canvas_clipper.1 512 512 _ 1 50 50 (9/10) (by decide)).trans
      (by decide)

/-- C9: when no reference pose is supplied, `dwrestore` performs no
restoration and returns the original current pose unchanged; this is not an
error. -/
theorem c9_no_reference_returns_input (solver : AffineSolver)
    (pose_keypoints : PoseContainer) (reduce_confidence : Bool)
    (confidence_reduction_factor : ℚ) :
    dwrestore solver pose_keypoints none reduce_confidence
      confidence_reduction_factor = some pose_keypoints := rfl

/-- C10: for an input container carrying a `people` list with more than one
person record, `dwrestore` restores and canvas-clips only the first person:
every other person record appears unchanged in the returned pose, and when
restoration runs the head of the output is exactly the restored-then-clipped
first person. -/
theorem c10_only_first_person (solver : AffineSolver)
    (reduce_confidence : Bool) (confidence_reduction_factor : ℚ)
    (pose_keypoints ref : PoseContainer) (p : Person) (rest : List Person)
    (out : PoseContainer)
    (hkey : has_people_list pose_keypoints = true)
    (hppl : peopleOf pose_keypoints = p :: rest)
    (h : dwrestore solver pose_keypoints (some ref) reduce_confidence
      confidence_reduction_factor = some out) :
    (peopleOf out).drop 1 = rest ∧
    (∀ pref pin2, get_person0_main ref = some pref →
      restore_person solver reduce_confidence confidence_reduction_factor
        p pref = some pin2 →
      peopleOf out =
        zero_out_person (get_canvas_dims pose_keypoints).1
          (get_canvas_dims pose_keypoints).2 pin2 :: rest) := by
  cases pose_keypoints with
  | dictPeople ch cw ps =>
    have hps : ps = p :: rest := hppl
    subst hps
    cases href : get_person0_main ref with
    | none =>
      have hout : out = PoseContainer.dictPeople ch cw (p :: rest) := by
        simp only [dwrestore] at h
        rw [href] at h
        simp only [get_person0_main] at h
        exact (Option.some.inj h).symm
      subst hout
      exact ⟨rfl, fun pref pin2 h1 h2 => Option.noConfusion h1⟩
    | some pref =>
      cases hrp : restore_person solver reduce_confidence
          confidence_reduction_factor p pref with
      | none =>
        exfalso
        simp only [dwrestore] at h
        rw [href] at h
        simp only [get_person0_main, hrp] at h
        exact Option.noConfusion h
      | some pin2 =>
        have hout : out = PoseContainer.dictPeople ch cw
            (zero_out_person (ch.getD 512) (cw.getD 512) pin2 :: rest) := by
          simp only [dwrestore] at h
          rw [href] at h
          simp only [get_person0_main, hrp, replace_person0, get_canvas_dims,
            zero_out_of_canvas, get_person0_zero] at h
          exact (Option.some.inj h).symm
        subst hout
        refine ⟨rfl, fun pref2 pin22 h1 h2 => ?_⟩
        obtain rfl := Option.some.inj h1
        rw [hrp] at h2
        obtain rfl := Option.some.inj h2
        rfl
  | listTopDict ch cw ps =>
    have hps : ps = p :: rest := hppl
    subst hps
    cases href : get_person0_main ref with
    | none =>
      have hout : out = PoseContainer.listTopDict ch cw (p :: rest) := by
        simp only [dwrestore] at h
        rw [href] at h
        simp only [get_person0_main] at h
        exact (Option.some.inj h).symm
      subst hout
      exact ⟨rfl, fun pref pin2 h1 h2 => Option.noConfusion h1⟩
    | some pref =>
      cases hrp : restore_person solver reduce_confidence
          confidence_reduction_factor p pref with
      | none =>
        exfalso
        simp only [dwrestore] at h
        rw [href] at h
        simp only [get_person0_main, hrp] at h
        exact Option.noConfusion h
      | some pin2 =>
        have hout : out = PoseContainer.listTopDict ch cw
            (zero_out_person (ch.getD 512) (cw.getD 512) pin2 :: rest) := by
          simp only [dwrestore] at h
          rw [href] at h
          simp only [get_person0_main, hrp, replace_person0, get_canvas_dims,
            zero_out_of_canvas, get_person0_zero] at h
          exact (Option.some.inj h).symm
        subst hout
        refine ⟨rfl, fun pref2 pin22 h1 h2 => ?_⟩
        obtain rfl := Option.some.inj h1
        rw [hrp] at h2
        obtain rfl := Option.some.inj h2
        rfl
  | listPersons ps =>
    exact absurd hkey (by simp [has_people_list])
  | unsupported =>
    exact absurd hkey (by simp [has_people_list])

/-- Closed instance of `c10_only_first_person`: the second person record is
returned unchanged while the first is restored and clipped. -/
theorem c10_witness :
    dwrestore test_solver c10pose (some c10ref) true (7/10) = some c10out ∧
    (peopleOf c10out).drop 1 = [c10p1] ∧
    peopleOf c10out = zero_out_person 512 512 c10restored :: [c10p1] := by
  have h := c10_only_first_person test_solver true (7/10) c10pose c10ref
    c10p0 [c10p1] c10out (by decide) (by decide) (by decide)
  refine ⟨by decide, h.1, ?_⟩
  exact (h.2 c10refp c10restored (by decide) (by decide)).trans (by decide)
